import Mathlib

/-
Verification development for the SwimrankingsScraper repository
(src/swimrankingsscraper/swimrankingsscraper.py).

The Python source is shallowly embedded:
 - Python exceptions become the `PyErr` error type of an `Except PyErr` monad;
   a `try ... except AttributeError: return []` block becomes a match on the
   embedded computation that converts `.error .attributeError` to `.ok []`.
 - `datetime.strptime` with the three fixed formats used by `convert_time`
   is embedded field by field.  For these formats strptime compiles the value
   constrained regexes H = 2[0-3]|[0-1]d|d, M = [0-5]d|d, S = 6[0-1]|[0-5]d|d,
   f = 1..6 digits, joined by the literal separators : and . , and rejects the
   input when characters remain after the match.  Because every field consumes
   only digits while the separators are non digits, the regex decomposition of
   an accepted string is forced, so the embedding splits the string at the
   separators and validates each field; this is extensionally the strptime
   behaviour on all inputs.  `datetime` additionally rejects second values 60
   and 61 (accepted by the %S regex) with the same ValueError.
 - Wall-clock time is passed explicitly as a rational number; `time.sleep`
   becomes returning the waiting time, and the HTTP transport becomes a
   `FetchOutcome` argument (failure = non-success status or transport error
   raised as requests.RequestException; success carries the parsed document).
 - Python floats are modelled as exact rationals, following the
   specification's reading of times as real numbers.
 - BeautifulSoup documents become the `Node` tree below, with the tag/class
   search operations the source uses.  Unicode NFKD normalization is modelled
   as the identity map (it is the identity on ASCII data and no claim settled
   here depends on its action).
-/

deriving instance DecidableEq for Except

/-- Kinds of Python exceptions that the embedded code can raise.
`formatError` stands for `ValueError` (the spec's FormatError),
raised by `datetime.strptime`, by `datetime`'s range checks and by `int()`. -/
inductive PyErr where
  | formatError
  | indexError
  | keyError
  | typeError
  | attributeError
deriving DecidableEq

/-! ## DurationParser: `convert_time` (source lines 54-69) -/

/-- Numeric value of a digit string, most significant digit first. -/
def digitsVal (cs : List Char) : Nat :=
  cs.foldl (fun a c => 10 * a + (c.toNat - 48)) 0

/-- Every character is an ASCII digit. -/
def allDigits (cs : List Char) : Bool :=
  cs.all (fun c => c.isDigit)

/-- Split a character list at every occurrence of `sep` (like `str.split`);
the result is always nonempty. -/
def splitSep (sep : Char) : List Char → List (List Char)
  | [] => [[]]
  | c :: cs =>
    if c = sep then [] :: splitSep sep cs
    else
      match splitSep sep cs with
      | [] => [[c]]
      | g :: gs => (c :: g) :: gs

/-- Acceptance of one numeric strptime field: one digit, or two digits whose
value is at most `maxVal` (this is exactly the value-constrained field regex
strptime compiles for %H with `maxVal = 23`, %M with `59`, %S with `61`). -/
def fieldOk (maxVal : Nat) (cs : List Char) : Bool :=
  allDigits cs && (cs.length == 1 || (cs.length == 2 && decide (digitsVal cs ≤ maxVal)))

/-- Acceptance of the %f field: one to six digits. -/
def fracOk (cs : List Char) : Bool :=
  allDigits cs && decide (1 ≤ cs.length) && decide (cs.length ≤ 6)

/-- Microsecond value of a %f field: the digits are right-padded to six. -/
def microVal (cs : List Char) : Nat :=
  digitsVal cs * 10 ^ (6 - cs.length)

/-- Parse the trailing `S.f` part of a time string (seconds and microseconds). -/
def parseSecFrac (cs : List Char) : Option (Nat × Nat) :=
  match splitSep '.' cs with
  | [ss, fs] =>
    if fieldOk 61 ss && fracOk fs then some (digitsVal ss, microVal fs) else none
  | _ => none

/-- strptime with format %H:%M:%S.%f; returns (hour, minute, second, microsecond). -/
def parseHMS (cs : List Char) : Option (Nat × Nat × Nat × Nat) :=
  match splitSep ':' cs with
  | [hs, ms, rest] =>
    if fieldOk 23 hs && fieldOk 59 ms then
      match parseSecFrac rest with
      | some (s, f) => some (digitsVal hs, digitsVal ms, s, f)
      | none => none
    else none
  | _ => none

/-- strptime with format %M:%S.%f. -/
def parseMS (cs : List Char) : Option (Nat × Nat × Nat × Nat) :=
  match splitSep ':' cs with
  | [ms, rest] =>
    if fieldOk 59 ms then
      match parseSecFrac rest with
      | some (s, f) => some (0, digitsVal ms, s, f)
      | none => none
    else none
  | _ => none

/-- strptime with format %S.%f. -/
def parseS (cs : List Char) : Option (Nat × Nat × Nat × Nat) :=
  match parseSecFrac cs with
  | some (s, f) => some (0, 0, s, f)
  | none => none

/-- The body of `convert_time` after the marker strip (source lines 60-69):
the format is chosen by the number of colons; strptime failure and the
datetime range check (seconds 60 and 61) raise ValueError; the result is
`second + minute * 60 + hour * 3600 + microsecond / 1000000`. -/
def convertTimeCore (cs1 : List Char) : Except PyErr ℚ :=
  let colCount := (cs1.filter (fun c => c == ':')).length
  let parsed :=
    if colCount = 2 then parseHMS cs1
    else if colCount = 1 then parseMS cs1
    else parseS cs1
  match parsed with
  | none => .error .formatError
  | some (h, m, s, f) =>
    if 60 ≤ s then .error .formatError
    else .ok ((s : ℚ) + (m : ℚ) * 60 + (h : ℚ) * 3600 + (f : ℚ) / 1000000)

/-- `convert_time` on the character list of the input string.  Mirrors source
lines 54-69: `time_str[-1]` raises IndexError on the empty string; a trailing
marker character M is stripped; then the string is parsed. -/
def convertTimeChars (cs : List Char) : Except PyErr ℚ :=
  match cs.getLast? with
  | none => .error .indexError
  | some lastChar =>
    convertTimeCore (if lastChar = 'M' then cs.dropLast else cs)

/-- Source `convert_time` (lines 54-69). -/
def convert_time (s : String) : Except PyErr ℚ :=
  convertTimeChars s.data

/-- The acceptance domain of `convert_time` for nonempty input, as a predicate:
after stripping the trailing marker, the string must parse under the shape
selected by its colon count, with a second value datetime accepts. -/
def durationShape (cs : List Char) : Bool :=
  match cs.getLast? with
  | none => false
  | some lastChar =>
    let cs1 := if lastChar = 'M' then cs.dropLast else cs
    let colCount := (cs1.filter (fun c => c == ':')).length
    let parsed :=
      if colCount = 2 then parseHMS cs1
      else if colCount = 1 then parseMS cs1
      else parseS cs1
    match parsed with
    | none => false
    | some (_, _, s, _) => !(decide (60 ≤ s))

/-! ## RateGovernor: `SessionManager` (source lines 71-138)

Timestamps are rationals.  `check_request_rate_limit` returns the time slept
(`time.sleep(time_to_wait)`) together with the updated state instead of
blocking; `valid_requests[0]` on an empty list is Python's IndexError. -/

structure RateState where
  history : List ℚ
  maxReq : ℕ
  maxPer : ℚ
deriving DecidableEq

/-- Source `add_request` (lines 110-115): append the current timestamp. -/
def add_request (rs : RateState) (now : ℚ) : RateState :=
  { rs with history := rs.history ++ [now] }

/-- Source `check_request_rate_limit` (lines 117-129). -/
def check_request_rate_limit (rs : RateState) (now : ℚ) : Except PyErr (ℚ × RateState) :=
  let window_start := now - rs.maxPer
  let valid := rs.history.filter (fun t => decide (window_start < t))
  if rs.maxReq ≤ valid.length then
    match valid with
    | [] => .error .indexError
    | t0 :: _ =>
      let wait := t0 + rs.maxPer - now
      .ok (wait, { rs with history := rs.history.filter (fun t => decide (window_start + wait < t)) })
  else
    .ok (0, rs)

/-- Number of recorded timestamps inside the trailing window of length `w`
ending at time `T`. -/
def wcount (h : List ℚ) (w T : ℚ) : ℕ :=
  h.countP (fun s => decide (T - w < s) && decide (s ≤ T))

/-- One admitted-then-recorded request of the protocol of source lines
283-300: `check_request_rate_limit` runs at the arrival time, the request is
issued, and `add_request` records a timestamp after the wait plus the request
duration `g`.  A step of `run_protocol` is a pair (delay before arrival,
delay between admission and recording), both nonnegative in the intended
runs. -/
def run_protocol (rs : RateState) (clock : ℚ) : List (ℚ × ℚ) → Except PyErr (RateState × ℚ)
  | [] => .ok (rs, clock)
  | dg :: steps =>
    match check_request_rate_limit rs (clock + dg.1) with
    | .error e => .error e
    | .ok (wait, rs1) =>
      run_protocol (add_request rs1 (clock + dg.1 + wait + dg.2)) (clock + dg.1 + wait + dg.2) steps

/-! ## Document model: the BeautifulSoup operations the source uses -/

/-- A parsed markup tree: element nodes with a tag name, attributes and
children, and text nodes. -/
inductive Node where
  | elem (tag : String) (attrs : List (String × String)) (children : List Node) : Node
  | text (s : String) : Node

/- All descendants of a node in document order (bs4 `find`/`find_all`
search descendants, excluding the node itself). -/
mutual
def Node.descendants : Node → List Node
  | .text _ => []
  | .elem _ _ cs => descendantsList cs
def descendantsList : List Node → List Node
  | [] => []
  | c :: cs => c :: Node.descendants c ++ descendantsList cs
end

/-- Python `str.strip()` on the character list of a string. -/
def trimChars (cs : List Char) : List Char :=
  ((cs.dropWhile Char.isWhitespace).reverse.dropWhile Char.isWhitespace).reverse

/-- Python `str.strip()`. -/
def pyStrip (s : String) : String :=
  String.mk (trimChars s.data)

/- `get_text(strip=True)`: every text fragment stripped, concatenated. -/
mutual
def Node.getText : Node → String
  | .text s => pyStrip s
  | .elem _ _ cs => getTextList cs
def getTextList : List Node → String
  | [] => ""
  | c :: cs => Node.getText c ++ getTextList cs
end

/- The `.text` property: text fragments concatenated without stripping. -/
mutual
def Node.textAll : Node → String
  | .text s => s
  | .elem _ _ cs => textAllList cs
def textAllList : List Node → String
  | [] => ""
  | c :: cs => Node.textAll c ++ textAllList cs
end

def Node.attrList : Node → List (String × String)
  | .elem _ as _ => as
  | .text _ => []

def Node.getAttr (n : Node) (k : String) : Option String :=
  (n.attrList.find? (fun p => p.1 == k)).map (fun p => p.2)

def Node.tag? : Node → Option String
  | .elem t _ _ => some t
  | .text _ => none

/-- The multi-valued `class` attribute: the attribute text split on
whitespace, empty groups dropped. -/
def Node.classes (n : Node) : List String :=
  match n.getAttr "class" with
  | none => []
  | some v => ((splitSep ' ' v.data).filter (fun g => !(g.isEmpty))).map String.mk

/-- bs4 match for `find(tag, some-class-of cls)`: the tag name is `tag` and
one of the wanted class tokens occurs among the node's classes. -/
def Node.matchesSel (n : Node) (tag : String) (cls : List String) : Bool :=
  n.tag? == some tag && cls.any (fun c => n.classes.contains c)

def Node.findSel (n : Node) (tag : String) (cls : List String) : Option Node :=
  n.descendants.find? (fun m => m.matchesSel tag cls)

def Node.findAllSel (n : Node) (tag : String) (cls : List String) : List Node :=
  n.descendants.filter (fun m => m.matchesSel tag cls)

def Node.findTag (n : Node) (tag : String) : Option Node :=
  n.descendants.find? (fun m => m.tag? == some tag)

def Node.findAllTag (n : Node) (tag : String) : List Node :=
  n.descendants.filter (fun m => m.tag? == some tag)

/-- bs4 match for `find(tag, attribute-value pair)` on a single-valued
attribute such as `name`. -/
def Node.findByAttr (n : Node) (tag key val : String) : Option Node :=
  n.descendants.find? (fun m => m.tag? == some tag && m.getAttr key == some val)

/-! ### Python-level helpers: operations on a possibly-`None` value -/

/-- `x.find(tag, classes)` where `x` may be `None` (AttributeError). -/
def pyFind (o : Option Node) (tag : String) (cls : List String) : Except PyErr (Option Node) :=
  match o with
  | none => .error .attributeError
  | some n => .ok (n.findSel tag cls)

/-- `x.find_all(tag, classes)` where `x` may be `None`. -/
def pyFindAll (o : Option Node) (tag : String) (cls : List String) : Except PyErr (List Node) :=
  match o with
  | none => .error .attributeError
  | some n => .ok (n.findAllSel tag cls)

/-- `x.find(tag)` where `x` may be `None`. -/
def pyFindTag (o : Option Node) (tag : String) : Except PyErr (Option Node) :=
  match o with
  | none => .error .attributeError
  | some n => .ok (n.findTag tag)

/-- `x.find_all(tag)` where `x` may be `None`. -/
def pyFindAllTag (o : Option Node) (tag : String) : Except PyErr (List Node) :=
  match o with
  | none => .error .attributeError
  | some n => .ok (n.findAllTag tag)

/-- `x.find(tag, attribute pair)` where `x` may be `None`. -/
def pyFindByAttr (o : Option Node) (tag key val : String) : Except PyErr (Option Node) :=
  match o with
  | none => .error .attributeError
  | some n => .ok (n.findByAttr tag key val)

/-- `x.get_text(strip=True)` where `x` may be `None`. -/
def pyGetText (o : Option Node) : Except PyErr String :=
  match o with
  | none => .error .attributeError
  | some n => .ok n.getText

/-- `x.text` where `x` may be `None`. -/
def pyTextAll (o : Option Node) : Except PyErr String :=
  match o with
  | none => .error .attributeError
  | some n => .ok n.textAll

/-- Attribute subscript `x[k]`: `None[k]` is a TypeError, a missing
attribute is a KeyError. -/
def pyAttr (o : Option Node) (k : String) : Except PyErr String :=
  match o with
  | none => .error .typeError
  | some n =>
    match n.getAttr k with
    | none => .error .keyError
    | some v => .ok v

/-- Python list subscript with negative-index wrap-around; IndexError when
out of range. -/
def pyIndex {α : Type} (l : List α) (i : ℤ) : Except PyErr α :=
  let j := if i < 0 then i + l.length else i
  if j < 0 then .error .indexError
  else
    match l.get? j.toNat with
    | some a => .ok a
    | none => .error .indexError

/-! ### URL and text helpers used by the extractors -/

/-- `urlparse(url).query`: the part after the first question mark, before a
fragment marker. -/
def urlQuery (url : String) : String :=
  match url.splitOn "?" with
  | [] => ""
  | [_] => ""
  | _ :: rest => ((String.intercalate "?" rest).splitOn "#").headD ""

/-- `parse_qs(q)[k][0]`: first value recorded for key `k`; parse_qs drops
pairs with a blank value, and a missing key raises KeyError. -/
def parse_qs_get (q : String) (k : String) : Except PyErr String :=
  match (q.splitOn "&").filterMap (fun kv =>
      match kv.splitOn "=" with
      | key :: v1 :: vrest =>
        let v := String.intercalate "=" (v1 :: vrest)
        if key == k then (if v == "" then none else some v) else none
      | _ => none) with
  | [] => .error .keyError
  | v :: _ => .ok v

/-- `int(s)`: ValueError when the text is not an integer literal. -/
def pyInt (s : String) : Except PyErr ℤ :=
  match s.toInt? with
  | some n => .ok n
  | none => .error .formatError

/-- `unicodedata.normalize("NFKD", s)`, modelled as the identity map (it is
the identity on ASCII and no claim settled here depends on its action). -/
def unicodeNFKD (s : String) : String := s

/-- Python's substring test `needle in hay`. -/
def strContains (hay needle : String) : Bool :=
  hay.data.tails.any (fun t => needle.data.isPrefixOf t)

/-- An apostrophe character, kept out of string literals. -/
def apos : String := String.mk [Char.ofNat 39]

/-- The opening delimiter matched by the split-times pattern of source line
583: the literal text of the regex with its escapes resolved. -/
def splitOpenDelim : String := "<td class=\\" ++ apos ++ "split1\\" ++ apos ++ ">"

/-- `re.findall` with the split-times pattern: every non-greedy capture
between the opening delimiter and the next closing cell tag. -/
def findallSplits (s : String) : List String :=
  ((s.splitOn splitOpenDelim).drop 1).filterMap (fun chunk =>
    match chunk.splitOn "</td>" with
    | [] => none
    | [_] => none
    | pre :: _ :: _ => some pre)

/-! ## Record types produced by the extractors -/

structure PersonalBest where
  result_id : ℤ
  event_name : String
  course_length : String
  time : ℚ
  fina_points : String
deriving DecidableEq

structure MeetAppearance where
  meet_id : ℤ
  meet_date : String
  meet_city : String
  meet_name : String
deriving DecidableEq

structure ClubEntry where
  club_id : String
  club_name : String
deriving DecidableEq

structure EventEntry where
  event_id : String
  event_gender : String
  event_name : String
deriving DecidableEq

structure RaceEntry where
  race_id : ℕ
  race_name : String
deriving DecidableEq

structure ResultRow where
  result_id : String
  athlete_id : String
  name : String
  club_name : String
  time : String
  split_times : List String
deriving DecidableEq

structure TimePeriod where
  period_id : String
  period_name : String
deriving DecidableEq

structure NationEntry where
  nation_id : String
  nation_name : String
deriving DecidableEq

structure MeetSummary where
  meet_id : String
  meet_date : String
  meet_city : String
  meet_name : String
  course_length : String
deriving DecidableEq

structure AthleteEntry where
  athlete_id : String
  athlete_name : String
deriving DecidableEq

/-! ## Extractor methods

Each extractor method first fetches `soup = self._get_page_content(params)`
(the cache, embedded separately below, returns the cached document or `None`);
the embedded method takes that result as its `soup : Option Node` argument and
mirrors the body from there on.  The extents of the `try ... except
AttributeError: return []` blocks follow the source exactly: only the fetch
and the first structural lookup are guarded. -/

/-- `Athlete.list_personal_bests` (source lines 363-389). -/
def list_personal_bests (soup : Option Node) : Except PyErr (List PersonalBest) :=
  match pyFind soup "table" ["athleteBest"] with
  | .error .attributeError => .ok []
  | .error e => .error e
  | .ok table =>
    match pyFindAll table "tr" ["athleteBest0", "athleteBest1"] with
    | .error e => .error e
    | .ok rows =>
      rows.foldlM (fun data row => do
        let event_cell ← pyFind (some row) "td" ["event"]
        let ea ← pyFindTag event_cell "a"
        let event_name ← pyGetText ea
        let course_cell ← pyFind (some row) "td" ["course"]
        let course_length ← pyGetText course_cell
        let time_cell ← pyFind (some row) "td" ["time", "swimtimeImportant"]
        let ts ← pyGetText time_cell
        let t ← convert_time ts
        let ta ← pyFindTag time_cell "a"
        let result_url ← pyAttr ta "href"
        let rid ← parse_qs_get (urlQuery result_url) "id"
        let result_id ← pyInt rid
        let code_cell ← pyFind (some row) "td" ["code"]
        let fina_points ← pyGetText code_cell
        .ok (data ++ [⟨result_id, event_name, course_length, t, fina_points⟩])) []

/-- `Athlete.list_meets` (source lines 391-415). -/
def athlete_list_meets (soup : Option Node) : Except PyErr (List MeetAppearance) :=
  match pyFind soup "table" ["athleteMeet"] with
  | .error .attributeError => .ok []
  | .error e => .error e
  | .ok table =>
    match pyFindAll table "tr" ["athleteMeet0", "athleteMeet1"] with
    | .error e => .error e
    | .ok rows =>
      rows.foldlM (fun data row => do
        let date_cell ← pyFind (some row) "td" ["date"]
        let dt ← pyGetText date_cell
        let meet_date := unicodeNFKD dt
        let city_cell ← pyFind (some row) "td" ["city"]
        let ca ← pyFindTag city_cell "a"
        let meet_city ← pyGetText ca
        let meet_name ← pyAttr ca "title"
        let meet_url ← pyAttr ca "href"
        let mid ← parse_qs_get (urlQuery meet_url) "meetId"
        let meet_id ← pyInt mid
        .ok (data ++ [⟨meet_id, meet_date, meet_city, meet_name⟩])) []

/-- `Meet.list_clubs` (source lines 472-495). -/
def list_clubs (soup : Option Node) : Except PyErr (List ClubEntry) :=
  match pyFind soup "table" ["meetSearch"] with
  | .error .attributeError => .ok []
  | .error e => .error e
  | .ok table =>
    match pyFindAll table "tr" ["meetResult0", "meetResult1"] with
    | .error e => .error e
    | .ok rows =>
      rows.foldlM (fun data row => do
        let club_cell ← pyFind (some row) "td" ["club"]
        let ca ← pyFindTag club_cell "a"
        let club_url ← pyAttr ca "href"
        let club_id ← parse_qs_get (urlQuery club_url) "clubId"
        let club_name ← pyGetText ca
        .ok (data ++ [⟨club_id, club_name⟩])) []

/-- The label before the men's event menu (source line 512). -/
def mensLabel : String := "Men" ++ apos ++ "s events: "

/-- The label before the women's event menu (source line 518). -/
def womensLabel : String := "Women" ++ apos ++ "s events: "

/-- The search lambda of source lines 513 and 519:
`tag.name == td and tag[class][0] == navigation and search_text in tag.text`.
Subscripting a tag without a class attribute raises KeyError; an empty class
list raises IndexError. -/
def navMenuMatch (search : String) (n : Node) : Except PyErr Bool :=
  match n.tag? with
  | none => .ok false
  | some t =>
    if t == "td" then
      match n.getAttr "class" with
      | none => .error .keyError
      | some _ =>
        match n.classes with
        | [] => .error .indexError
        | c0 :: _ => .ok (c0 == "navigation" && strContains n.textAll search)
    else .ok false

/-- bs4 `find` with a predicate function: the first descendant for which the
function returns a truthy value; an exception inside the function propagates. -/
def findFirstM (p : Node → Except PyErr Bool) : List Node → Except PyErr (Option Node)
  | [] => .ok none
  | n :: rest => do
    if (← p n) then .ok (some n) else findFirstM p rest

/-- `x.find(function)` where `x` may be `None`. -/
def pyFindPred (o : Option Node) (p : Node → Except PyErr Bool) : Except PyErr (Option Node) :=
  match o with
  | none => .error .attributeError
  | some n => findFirstM p n.descendants

/-- `Meet.list_events` (source lines 497-523).  Note the try block covers
only the fetch and the navigation-table lookup; the menu searches run
outside it. -/
def list_events (soup : Option Node) : Except PyErr (List EventEntry) :=
  match pyFind soup "table" ["navigation"] with
  | .error .attributeError => .ok []
  | .error e => .error e
  | .ok table => do
    let menuM ← pyFindPred table (navMenuMatch mensLabel)
    let optsM ← pyFindAllTag menuM "option"
    let data ← optsM.foldlM (fun data item => do
      let v ← pyAttr (some item) "value"
      if v ≠ "0" then .ok (data ++ [⟨v, "1", item.getText⟩]) else .ok data) []
    let menuW ← pyFindPred table (navMenuMatch womensLabel)
    let optsW ← pyFindAllTag menuW "option"
    optsW.foldlM (fun data item => do
      let v ← pyAttr (some item) "value"
      if v ≠ "0" then .ok (data ++ [⟨v, "2", item.getText⟩]) else .ok data) data

/-- The body of the race loop of `Meet.list_races` (source lines 543-547):
`p` is one `(id, table)` pair from the enumeration. -/
def raceEntryOfTable (races : List RaceEntry) (p : ℕ × Node) : Except PyErr (List RaceEntry) := do
  let head := p.2.findSel "tr" ["meetResultHead"]
  let name_cell ← pyFind head "th" ["event"]
  let nm ← pyGetText name_cell
  .ok (races ++ [⟨p.1 + 1, unicodeNFKD nm⟩])

/-- `Meet.list_races` (source lines 525-548). -/
def list_races (soup : Option Node) : Except PyErr (List RaceEntry) :=
  match pyFindAll soup "table" ["meetResult"] with
  | .error .attributeError => .ok []
  | .error e => .error e
  | .ok tables =>
    tables.enum.foldlM raceEntryOfTable []

/-- The body of the result-row loop of `Meet.list_results`
(source lines 570-587). -/
def extractResultRow (row : Node) : Except PyErr ResultRow := do
  let name_cell ← pyFind (some row) "td" ["name"]
  let na ← pyFindTag name_cell "a"
  let nm ← pyGetText na
  let name_url ← pyAttr na "href"
  let athlete_id ← parse_qs_get (urlQuery name_url) "athleteId"
  let club_cells ← pyFindAll (some row) "td" ["name"]
  let club_cell ← pyIndex club_cells 1
  let cca ← pyFindTag (some club_cell) "a"
  let club_name ← pyGetText cca
  let time_cell ← pyFind (some row) "td" ["swimtime"]
  let ta ← pyFindTag time_cell "a"
  let t ← pyGetText ta
  let split_times_rough ←
    match pyAttr ta "onmouseover" with
    | .error .keyError => .ok ""
    | r => r
  let split_times := findallSplits split_times_rough
  let result_url ← pyAttr ta "href"
  let result_id ← parse_qs_get (urlQuery result_url) "id"
  .ok ⟨result_id, athlete_id, nm, club_name, t, split_times⟩

/-- The row loop of `Meet.list_results` over one result table. -/
def extractResultRows (table : Node) : Except PyErr (List ResultRow) :=
  (table.findAllSel "tr" ["meetResult0", "meetResult1"]).foldlM
    (fun results row => do
      let r ← extractResultRow row
      .ok (results ++ [r])) []

/-- `Meet.list_results` (source lines 551-588): the table is selected by
`tables[race_id - 1]` outside the try block. -/
def list_results (soup : Option Node) (race_id : ℤ) : Except PyErr (List ResultRow) :=
  match pyFindAll soup "table" ["meetResult"] with
  | .error .attributeError => .ok []
  | .error e => .error e
  | .ok tables => do
    let table ← pyIndex tables (race_id - 1)
    extractResultRows table

/-- `Result.get_time` (source lines 634-647). -/
def get_time (soup : Option Node) : Except PyErr (Option String) :=
  match (do pyTextAll (← pyFind soup "td" ["swimtimeLarge"])) with
  | .error .attributeError => .ok none
  | .error e => .error e
  | .ok s => .ok (some s)

/-- `Meets.list_time_periods` (source lines 690-707). -/
def list_time_periods (soup : Option Node) : Except PyErr (List TimePeriod) :=
  match pyFindByAttr soup "select" "name" "selectPage" with
  | .error .attributeError => .ok []
  | .error e => .error e
  | .ok menu =>
    match pyFindAllTag menu "option" with
    | .error e => .error e
    | .ok opts =>
      opts.foldlM (fun periods item => do
        let v ← pyAttr (some item) "value"
        if v ≠ "RECENT" ∧ v ≠ "BYTYPE" then
          .ok (periods ++ [⟨v, unicodeNFKD item.getText⟩])
        else .ok periods) []

/-- `Meets.list_nations` (source lines 709-726). -/
def list_nations (soup : Option Node) : Except PyErr (List NationEntry) :=
  match pyFindByAttr soup "select" "name" "nationId" with
  | .error .attributeError => .ok []
  | .error e => .error e
  | .ok menu =>
    match pyFindAllTag menu "option" with
    | .error e => .error e
    | .ok opts =>
      opts.foldlM (fun nations item => do
        let v ← pyAttr (some item) "value"
        if v ≠ "$$$" then
          .ok (nations ++ [⟨v, unicodeNFKD item.getText⟩])
        else .ok nations) []

/-- `Meets.list_meets` (source lines 729-759). -/
def meets_list_meets (soup : Option Node) : Except PyErr (List MeetSummary) :=
  match pyFindAll soup "table" ["meetSearch"] with
  | .error .attributeError => .ok []
  | .error e => .error e
  | .ok tables =>
    tables.foldlM (fun meets table =>
      (table.findAllSel "tr" ["meetSearch0", "meetSearch1"]).foldlM (fun meets row => do
        let date_cell ← pyFind (some row) "td" ["date"]
        let dt ← pyGetText date_cell
        let meet_date := unicodeNFKD dt
        let city_cell ← pyFind (some row) "td" ["city"]
        let ca ← pyFindTag city_cell "a"
        let ct ← pyGetText ca
        let meet_city := unicodeNFKD ct
        let meet_url ← pyAttr ca "href"
        let name_cells ← pyFindAll (some row) "td" ["name"]
        let name_cell ← pyIndex name_cells 1
        let nca ← pyFindTag (some name_cell) "a"
        let meet_name ← pyGetText nca
        let course_cell ← pyFind (some row) "td" ["course"]
        let course_length ← pyGetText course_cell
        let meet_id ← parse_qs_get (urlQuery meet_url) "meetId"
        .ok (meets ++ [⟨meet_id, meet_date, meet_city, meet_name, course_length⟩])) meets) []

/-- The gender selector list of source line 809. -/
def genderChoices : List String := ["CURRENT", "ALL_MEN", "All_WOMEN"]

/-- `Club.list_athletes` (source lines 799-825): the gender subscript runs
before the fetch and can raise IndexError for values outside the list. -/
def list_athletes (soup : Option Node) (gender : ℤ) : Except PyErr (List AthleteEntry) := do
  let _athlete_gender ← pyIndex genderChoices gender
  match pyFindAll soup "table" ["athleteList"] with
  | .error .attributeError => .ok []
  | .error e => .error e
  | .ok tables =>
    tables.foldlM (fun athletes table =>
      (table.findAllSel "tr" ["athleteSearch0", "athleteSearch1"]).foldlM (fun athletes row => do
        let name_cell ← pyFind (some row) "td" ["name"]
        let na ← pyFindTag name_cell "a"
        let nm ← pyGetText na
        let athlete_url ← pyAttr na "href"
        let athlete_id ← parse_qs_get (urlQuery athlete_url) "athleteId"
        .ok (athletes ++ [⟨athlete_id, nm⟩])) athletes) []

/-! ## FetchCache: `ScraperMixin` (source lines 238-315)

The HTTP transport is an input: a `FetchOutcome` is either `failure` (a
non-success status from `raise_for_status`, or a transport error raised by
`session.get`, both `requests.RequestException`) or `success doc` (the
response body parsed into a document).  `_update_page_content` first runs the
rate limiter (which may sleep), then issues the request; on success it stores
the parsed document, stamps `last_updated`, calls `add_request`, and then
checks for a `body` element — that check raises inside the same try block, so
it is caught by the `except requests.RequestException` handler after all the
stores have happened and only produces a log line (`loggedError`). -/

/-- Request parameter mappings.  The source builds each mapping literally
with a fixed key order, so dictionary equality coincides with equality of
the key/value list. -/
abbrev Params := List (String × String)

structure ScraperState where
  last_request : Option Params
  page_content : Option Node
  update_interval : ℚ
  last_updated : Option ℚ

/-- Outcome of one HTTP GET. -/
inductive FetchOutcome where
  | failure
  | success (doc : Node)

structure UpdateResult where
  rate : RateState
  scr : ScraperState
  finish : ℚ
  loggedError : Bool

/-- `ScraperMixin._update_page_content` (source lines 283-300). -/
def update_page_content (rs : RateState) (st : ScraperState) (now : ℚ)
    (outcome : FetchOutcome) : Except PyErr UpdateResult :=
  match check_request_rate_limit rs now with
  | .error e => .error e
  | .ok (wait, rs1) =>
    let t := now + wait
    match outcome with
    | .failure => .ok ⟨rs1, st, t, true⟩
    | .success doc =>
      let st1 := { st with page_content := some doc, last_updated := some t }
      let rs2 := add_request rs1 t
      .ok ⟨rs2, st1, t, (doc.findTag "body").isNone⟩

structure GetResult where
  rate : RateState
  scr : ScraperState
  finish : ℚ
  fetched : Bool
  loggedError : Bool
  content : Option Node

/-- `ScraperMixin._get_page_content` (source lines 302-315): refetch when
there was no prior fetch, or the parameters differ from the last-used
mapping, or more than `update_interval` has elapsed; always record the
mapping; return the cached document. -/
def get_page_content (rs : RateState) (st : ScraperState) (now : ℚ) (params : Params)
    (outcome : FetchOutcome) : Except PyErr GetResult :=
  let needs : Bool :=
    match st.last_updated with
    | none => true
    | some lu => decide (st.last_request ≠ some params) || decide (st.update_interval < now - lu)
  if needs then
    match update_page_content rs st now outcome with
    | .error e => .error e
    | .ok r =>
      let scr2 := { r.scr with last_request := some params }
      .ok ⟨r.rate, scr2, r.finish, true, r.loggedError, scr2.page_content⟩
  else
    .ok ⟨rs, { st with last_request := some params }, now, false, false, st.page_content⟩

/-! ## Concrete documents used as inputs -/

/-- A well-formed page: a body containing no `navigation` table and no
`meetResult` table (for example a meet page with no data tables). -/
def docNoNav : Node :=
  .elem "html" [] [.elem "body" [] [.elem "table" [("class", "meetSearch")] []]]

/-- A successfully fetched page whose root `body` element is present. -/
def docWithBody : Node :=
  .elem "html" [] [.elem "body" [] []]

/-- A parsed response in which no `body` element can be located
(the "Empty response" case of source line 297). -/
def docNoBody : Node :=
  .elem "div" [] []

/-- One `meetResult` table with a head row naming the race. -/
def raceTable (nm : String) : Node :=
  .elem "table" [("class", "meetResult")]
    [.elem "tr" [("class", "meetResultHead")]
      [.elem "th" [("class", "event")] [.text nm]]]

/-- A meet page carrying two result tables for one event/gender. -/
def docTwoRaces : Node :=
  .elem "html" [] [.elem "body" [] [raceTable "Race A", raceTable "Race B"]]

/-! ## Lemmas: the duration parser -/

lemma mem_of_getLast?_eq {α : Type} {l : List α} {a : α} (h : l.getLast? = some a) :
    a ∈ l := by
  induction l with
  | nil => simp at h
  | cons b t ih =>
    cases t with
    | nil => simp_all
    | cons c u =>
      rw [List.getLast?_cons_cons] at h
      exact List.mem_cons_of_mem _ (ih h)

lemma not_mem_of_allDigits {cs : List Char} {c : Char} (hd : allDigits cs = true)
    (hc : c.isDigit = false) : c ∉ cs := by
  intro hmem
  have := List.all_eq_true.mp hd c hmem
  rw [this] at hc
  exact Bool.true_eq_false.mp hc

lemma splitSep_of_not_mem {sep : Char} {a : List Char} (ha : sep ∉ a) :
    splitSep sep a = [a] := by
  induction a with
  | nil => rfl
  | cons c t ih =>
    have hc : ¬(c = sep) := fun h => ha (h ▸ List.mem_cons_self c t)
    have ht : sep ∉ t := fun h => ha (List.mem_cons_of_mem _ h)
    rw [splitSep, if_neg hc, ih ht]

lemma splitSep_append {sep : Char} {a rest : List Char} (ha : sep ∉ a) :
    splitSep sep (a ++ sep :: rest) = a :: splitSep sep rest := by
  induction a with
  | nil => simp [splitSep]
  | cons c t ih =>
    have hc : ¬(c = sep) := fun h => ha (h ▸ List.mem_cons_self c t)
    have ht : sep ∉ t := fun h => ha (List.mem_cons_of_mem _ h)
    rw [List.cons_append, splitSep, if_neg hc, ih ht]

lemma filter_beq_nil {sep : Char} {a : List Char} (ha : sep ∉ a) :
    a.filter (fun c => c == sep) = [] := by
  rw [List.filter_eq_nil_iff]
  intro c hc hbeq
  exact ha (beq_iff_eq.mp hbeq ▸ hc)

lemma digit_val_le {c : Char} (h : c.isDigit = true) : c.toNat - 48 ≤ 9 := by
  simp [Char.isDigit] at h
  obtain ⟨h1, h2⟩ := h
  have : c.toNat ≤ 57 := by exact_mod_cast h2
  omega

lemma fieldOk_mono {m1 m2 : Nat} {cs : List Char} (h : m1 ≤ m2)
    (hf : fieldOk m1 cs = true) : fieldOk m2 cs = true := by
  unfold fieldOk at hf ⊢
  simp only [Bool.and_eq_true, Bool.or_eq_true, beq_iff_eq, decide_eq_true_eq] at hf ⊢
  rcases hf with ⟨hd, h1 | ⟨h2, hv⟩⟩
  · exact ⟨hd, Or.inl h1⟩
  · exact ⟨hd, Or.inr ⟨h2, hv.trans h⟩⟩

lemma allDigits_of_fieldOk {m : Nat} {cs : List Char} (h : fieldOk m cs = true) :
    allDigits cs = true := by
  unfold fieldOk at h
  simp only [Bool.and_eq_true] at h
  exact h.1

lemma allDigits_of_fracOk {cs : List Char} (h : fracOk cs = true) :
    allDigits cs = true := by
  unfold fracOk at h
  simp only [Bool.and_eq_true] at h
  exact h.1.1

lemma ne_nil_of_fracOk {cs : List Char} (h : fracOk cs = true) : cs ≠ [] := by
  unfold fracOk at h
  simp only [Bool.and_eq_true, decide_eq_true_eq] at h
  intro hnil
  rw [hnil] at h
  simp at h

lemma colon_not_mem {cs : List Char} (hd : allDigits cs = true) : ':' ∉ cs :=
  not_mem_of_allDigits hd (by decide)

lemma dot_not_mem {cs : List Char} (hd : allDigits cs = true) : '.' ∉ cs :=
  not_mem_of_allDigits hd (by decide)

lemma digitsVal_lt_60 {cs : List Char} (h : fieldOk 59 cs = true) :
    digitsVal cs < 60 := by
  unfold fieldOk at h
  simp only [Bool.and_eq_true, Bool.or_eq_true, beq_iff_eq, decide_eq_true_eq] at h
  obtain ⟨hd, h1 | ⟨_, hv⟩⟩ := h
  · obtain ⟨c, rfl⟩ := List.length_eq_one.mp h1
    have hc : c.isDigit = true := List.all_eq_true.mp hd c (List.mem_cons_self c [])
    have := digit_val_le hc
    simp only [digitsVal, List.foldl_cons, List.foldl_nil]
    omega
  · omega

lemma parseSecFrac_eval {ss fs : List Char} (hss : fieldOk 59 ss = true)
    (hf : fracOk fs = true) :
    parseSecFrac (ss ++ '.' :: fs) = some (digitsVal ss, microVal fs) := by
  have hdot_ss : '.' ∉ ss := dot_not_mem (allDigits_of_fieldOk hss)
  have hdot_fs : '.' ∉ fs := dot_not_mem (allDigits_of_fracOk hf)
  unfold parseSecFrac
  rw [splitSep_append hdot_ss, splitSep_of_not_mem hdot_fs]
  simp [fieldOk_mono (show (59:ℕ) ≤ 61 by omega) hss, hf]

/-- The seconds tail contains no colon. -/
lemma colon_not_mem_tail {ss fs : List Char} (hss : fieldOk 59 ss = true)
    (hf : fracOk fs = true) : ':' ∉ ss ++ '.' :: fs := by
  intro hmem
  rcases List.mem_append.mp hmem with h | h
  · exact colon_not_mem (allDigits_of_fieldOk hss) h
  · rcases List.mem_cons.mp h with h | h
    · exact absurd h (by decide)
    · exact colon_not_mem (allDigits_of_fracOk hf) h

lemma getLast?_append_right {l fs : List Char} (hne : fs ≠ []) :
    (l ++ fs).getLast? = fs.getLast? := by
  rw [List.getLast?_append]
  obtain ⟨c, hc⟩ := Option.isSome_iff_exists.mp (List.getLast?_isSome.mpr hne)
  rw [hc]
  rfl

lemma last_not_marker {fs : List Char} {c : Char} (hd : allDigits fs = true)
    (hgl : fs.getLast? = some c) : c ≠ 'M' := by
  intro h
  have hc := List.all_eq_true.mp hd c (mem_of_getLast?_eq hgl)
  rw [h] at hc
  exact absurd hc (by decide)

lemma convertTimeChars_base {base : List Char} {c : Char}
    (hgl : base.getLast? = some c) (hcM : c ≠ 'M') :
    convertTimeChars base = convertTimeCore base ∧
    convertTimeChars (base ++ ['M']) = convertTimeCore base := by
  constructor
  · simp only [convertTimeChars, hgl]
    rw [if_neg hcM]
  · simp only [convertTimeChars, List.getLast?_concat]
    rw [if_true, List.dropLast_concat]

lemma convertTimeCore_hms {hs ms ss fs : List Char}
    (hh : fieldOk 23 hs = true) (hm : fieldOk 59 ms = true)
    (hss : fieldOk 59 ss = true) (hf : fracOk fs = true) :
    convertTimeCore (hs ++ (':' :: (ms ++ (':' :: (ss ++ ('.' :: fs)))))) =
      .ok ((digitsVal ss : ℚ) + (digitsVal ms : ℚ) * 60 + (digitsVal hs : ℚ) * 3600
        + (microVal fs : ℚ) / 1000000) := by
  have hch : ':' ∉ hs := colon_not_mem (allDigits_of_fieldOk hh)
  have hcm : ':' ∉ ms := colon_not_mem (allDigits_of_fieldOk hm)
  have hct : ':' ∉ ss ++ '.' :: fs := colon_not_mem_tail hss hf
  have hsplit : splitSep ':' (hs ++ (':' :: (ms ++ (':' :: (ss ++ ('.' :: fs))))))
      = [hs, ms, ss ++ '.' :: fs] := by
    rw [splitSep_append hch, splitSep_append hcm, splitSep_of_not_mem hct]
  have hcount : ((hs ++ (':' :: (ms ++ (':' :: (ss ++ ('.' :: fs)))))).filter
      (fun c => c == ':')).length = 2 := by
    rw [List.filter_append, filter_beq_nil hch, List.filter_cons]
    rw [List.filter_append, filter_beq_nil hcm, List.filter_cons]
    rw [filter_beq_nil hct]
    simp
  have hp : parseHMS (hs ++ (':' :: (ms ++ (':' :: (ss ++ ('.' :: fs))))))
      = some (digitsVal hs, digitsVal ms, digitsVal ss, microVal fs) := by
    unfold parseHMS
    rw [hsplit]
    simp [hh, hm, parseSecFrac_eval hss hf]
  simp only [convertTimeCore, hcount]
  rw [if_true, hp]
  simp [Nat.not_le.mpr (digitsVal_lt_60 hss)]

lemma convertTimeCore_ms {ms ss fs : List Char}
    (hm : fieldOk 59 ms = true) (hss : fieldOk 59 ss = true) (hf : fracOk fs = true) :
    convertTimeCore (ms ++ (':' :: (ss ++ ('.' :: fs)))) =
      .ok ((digitsVal ss : ℚ) + (digitsVal ms : ℚ) * 60 + (microVal fs : ℚ) / 1000000) := by
  have hcm : ':' ∉ ms := colon_not_mem (allDigits_of_fieldOk hm)
  have hct : ':' ∉ ss ++ '.' :: fs := colon_not_mem_tail hss hf
  have hsplit : splitSep ':' (ms ++ (':' :: (ss ++ ('.' :: fs)))) = [ms, ss ++ '.' :: fs] := by
    rw [splitSep_append hcm, splitSep_of_not_mem hct]
  have hcount : ((ms ++ (':' :: (ss ++ ('.' :: fs)))).filter (fun c => c == ':')).length = 1 := by
    rw [List.filter_append, filter_beq_nil hcm, List.filter_cons]
    rw [filter_beq_nil hct]
    simp
  have hp : parseMS (ms ++ (':' :: (ss ++ ('.' :: fs))))
      = some (0, digitsVal ms, digitsVal ss, microVal fs) := by
    unfold parseMS
    rw [hsplit]
    simp [hm, parseSecFrac_eval hss hf]
  simp only [convertTimeCore, hcount]
  rw [if_true, hp]
  simp [Nat.not_le.mpr (digitsVal_lt_60 hss)]

lemma convertTimeCore_s {ss fs : List Char}
    (hss : fieldOk 59 ss = true) (hf : fracOk fs = true) :
    convertTimeCore (ss ++ ('.' :: fs)) =
      .ok ((digitsVal ss : ℚ) + (microVal fs : ℚ) / 1000000) := by
  have hct : ':' ∉ ss ++ '.' :: fs := colon_not_mem_tail hss hf
  have hcount : ((ss ++ ('.' :: fs)).filter (fun c => c == ':')).length = 0 := by
    rw [filter_beq_nil hct]
    rfl
  have hp : parseS (ss ++ ('.' :: fs)) = some (0, 0, digitsVal ss, microVal fs) := by
    unfold parseS
    rw [parseSecFrac_eval hss hf]
  simp only [convertTimeCore, hcount]
  rw [hp]
  simp [Nat.not_le.mpr (digitsVal_lt_60 hss)]

/-- Claim C8: for every valid duration string of shape h:mm:ss.ffffff,
mm:ss.ffffff, or ss.ffffff (fields given as digit strings the formats accept,
seconds below 60, fractional part of one to six digits), optionally suffixed
with the marker character M, `convert_time` returns exactly
hours * 3600 + minutes * 60 + seconds with the fractional part preserved; in
particular "1:02:03.45" yields 3723.45 and "28.44M" yields 28.44. -/
theorem convert_time_valid_durations :
    (∀ hs ms ss fs marker : List Char, fieldOk 23 hs = true → fieldOk 59 ms = true →
      fieldOk 59 ss = true → fracOk fs = true → marker = [] ∨ marker = ['M'] →
      convert_time (String.mk ((hs ++ (':' :: (ms ++ (':' :: (ss ++ ('.' :: fs)))))) ++ marker)) =
        .ok ((digitsVal hs : ℚ) * 3600 + (digitsVal ms : ℚ) * 60 + (digitsVal ss : ℚ)
          + (microVal fs : ℚ) / 1000000))
  ∧ (∀ ms ss fs marker : List Char, fieldOk 59 ms = true →
      fieldOk 59 ss = true → fracOk fs = true → marker = [] ∨ marker = ['M'] →
      convert_time (String.mk ((ms ++ (':' :: (ss ++ ('.' :: fs)))) ++ marker)) =
        .ok ((digitsVal ms : ℚ) * 60 + (digitsVal ss : ℚ) + (microVal fs : ℚ) / 1000000))
  ∧ (∀ ss fs marker : List Char,
      fieldOk 59 ss = true → fracOk fs = true → marker = [] ∨ marker = ['M'] →
      convert_time (String.mk ((ss ++ ('.' :: fs)) ++ marker)) =
        .ok ((digitsVal ss : ℚ) + (microVal fs : ℚ) / 1000000))
  ∧ convert_time "1:02:03.45" = .ok (3723.45 : ℚ)
  ∧ convert_time "28.44M" = .ok (28.44 : ℚ) := by
  have part1 : ∀ hs ms ss fs marker : List Char, fieldOk 23 hs = true → fieldOk 59 ms = true →
      fieldOk 59 ss = true → fracOk fs = true → marker = [] ∨ marker = ['M'] →
      convert_time (String.mk ((hs ++ (':' :: (ms ++ (':' :: (ss ++ ('.' :: fs)))))) ++ marker)) =
        .ok ((digitsVal hs : ℚ) * 3600 + (digitsVal ms : ℚ) * 60 + (digitsVal ss : ℚ)
          + (microVal fs : ℚ) / 1000000) := by
    intro hs ms ss fs marker hh hm hss hf hmk
    have hne : fs ≠ [] := ne_nil_of_fracOk hf
    have hbase : (hs ++ (':' :: (ms ++ (':' :: (ss ++ ('.' :: fs))))))
        = (hs ++ [':'] ++ ms ++ [':'] ++ ss ++ ['.']) ++ fs := by simp
    obtain ⟨c, hc⟩ := Option.isSome_iff_exists.mp (List.getLast?_isSome.mpr hne)
    have hgl : (hs ++ (':' :: (ms ++ (':' :: (ss ++ ('.' :: fs)))))).getLast? = some c := by
      rw [hbase, getLast?_append_right hne, hc]
    have hcM : c ≠ 'M' := last_not_marker (allDigits_of_fracOk hf) hc
    have hbse := convertTimeChars_base hgl hcM
    have hval : ((digitsVal hs : ℚ) * 3600 + (digitsVal ms : ℚ) * 60 + (digitsVal ss : ℚ)
        + (microVal fs : ℚ) / 1000000)
        = ((digitsVal ss : ℚ) + (digitsVal ms : ℚ) * 60 + (digitsVal hs : ℚ) * 3600
        + (microVal fs : ℚ) / 1000000) := by ring
    rcases hmk with rfl | rfl
    · rw [show convert_time (String.mk ((hs ++ (':' :: (ms ++ (':' :: (ss ++ ('.' :: fs)))))) ++ []))
          = convertTimeChars (hs ++ (':' :: (ms ++ (':' :: (ss ++ ('.' :: fs)))))) from by
            rw [convert_time]
            simp]
      rw [hbse.1, convertTimeCore_hms hh hm hss hf, hval]
    · rw [show convert_time (String.mk ((hs ++ (':' :: (ms ++ (':' :: (ss ++ ('.' :: fs)))))) ++ ['M']))
          = convertTimeChars ((hs ++ (':' :: (ms ++ (':' :: (ss ++ ('.' :: fs)))))) ++ ['M']) from rfl]
      rw [hbse.2, convertTimeCore_hms hh hm hss hf, hval]
  have part2 : ∀ ms ss fs marker : List Char, fieldOk 59 ms = true →
      fieldOk 59 ss = true → fracOk fs = true → marker = [] ∨ marker = ['M'] →
      convert_time (String.mk ((ms ++ (':' :: (ss ++ ('.' :: fs)))) ++ marker)) =
        .ok ((digitsVal ms : ℚ) * 60 + (digitsVal ss : ℚ) + (microVal fs : ℚ) / 1000000) := by
    intro ms ss fs marker hm hss hf hmk
    have hne : fs ≠ [] := ne_nil_of_fracOk hf
    have hbase : (ms ++ (':' :: (ss ++ ('.' :: fs)))) = (ms ++ [':'] ++ ss ++ ['.']) ++ fs := by
      simp
    obtain ⟨c, hc⟩ := Option.isSome_iff_exists.mp (List.getLast?_isSome.mpr hne)
    have hgl : (ms ++ (':' :: (ss ++ ('.' :: fs)))).getLast? = some c := by
      rw [hbase, getLast?_append_right hne, hc]
    have hcM : c ≠ 'M' := last_not_marker (allDigits_of_fracOk hf) hc
    have hbse := convertTimeChars_base hgl hcM
    have hval : ((digitsVal ms : ℚ) * 60 + (digitsVal ss : ℚ) + (microVal fs : ℚ) / 1000000)
        = ((digitsVal ss : ℚ) + (digitsVal ms : ℚ) * 60 + (microVal fs : ℚ) / 1000000) := by
      ring
    rcases hmk with rfl | rfl
    · rw [show convert_time (String.mk ((ms ++ (':' :: (ss ++ ('.' :: fs)))) ++ []))
          = convertTimeChars (ms ++ (':' :: (ss ++ ('.' :: fs)))) from by
            rw [convert_time]
            simp]
      rw [hbse.1, convertTimeCore_ms hm hss hf, hval]
    · rw [show convert_time (String.mk ((ms ++ (':' :: (ss ++ ('.' :: fs)))) ++ ['M']))
          = convertTimeChars ((ms ++ (':' :: (ss ++ ('.' :: fs)))) ++ ['M']) from rfl]
      rw [hbse.2, convertTimeCore_ms hm hss hf, hval]
  have part3 : ∀ ss fs marker : List Char,
      fieldOk 59 ss = true → fracOk fs = true → marker = [] ∨ marker = ['M'] →
      convert_time (String.mk ((ss ++ ('.' :: fs)) ++ marker)) =
        .ok ((digitsVal ss : ℚ) + (microVal fs : ℚ) / 1000000) := by
    intro ss fs marker hss hf hmk
    have hne : fs ≠ [] := ne_nil_of_fracOk hf
    have hbase : (ss ++ ('.' :: fs)) = (ss ++ ['.']) ++ fs := by simp
    obtain ⟨c, hc⟩ := Option.isSome_iff_exists.mp (List.getLast?_isSome.mpr hne)
    have hgl : (ss ++ ('.' :: fs)).getLast? = some c := by
      rw [hbase, getLast?_append_right hne, hc]
    have hcM : c ≠ 'M' := last_not_marker (allDigits_of_fracOk hf) hc
    have hbse := convertTimeChars_base hgl hcM
    rcases hmk with rfl | rfl
    · rw [show convert_time (String.mk ((ss ++ ('.' :: fs)) ++ []))
          = convertTimeChars (ss ++ ('.' :: fs)) from by
            rw [convert_time]
            simp]
      rw [hbse.1, convertTimeCore_s hss hf]
    · rw [show convert_time (String.mk ((ss ++ ('.' :: fs)) ++ ['M']))
          = convertTimeChars ((ss ++ ('.' :: fs)) ++ ['M']) from rfl]
      rw [hbse.2, convertTimeCore_s hss hf]
  refine ⟨part1, part2, part3, ?_, ?_⟩
  · have h := part1 ['1'] ['0', '2'] ['0', '3'] ['4', '5'] [] (by decide) (by decide)
      (by decide) (by decide) (Or.inl rfl)
    rw [show String.mk ((['1'] ++ (':' :: (['0', '2'] ++ (':' :: (['0', '3'] ++ ('.' :: ['4', '5']))))))
        ++ []) = "1:02:03.45" from rfl] at h
    rw [h]
    congr 1
    rw [show digitsVal ['1'] = 1 from rfl, show digitsVal ['0', '2'] = 2 from rfl,
      show digitsVal ['0', '3'] = 3 from rfl, show microVal ['4', '5'] = 450000 from rfl]
    norm_num
  · have h := part3 ['2', '8'] ['4', '4'] ['M'] (by decide) (by decide) (Or.inr rfl)
    rw [show String.mk ((['2', '8'] ++ ('.' :: ['4', '4'])) ++ ['M']) = "28.44M" from rfl] at h
    rw [h]
    congr 1
    rw [show digitsVal ['2', '8'] = 28 from rfl, show microVal ['4', '4'] = 440000 from rfl]
    norm_num

/-- Witness for the C8 theorem: the ss.ffffff branch applied at the concrete
input "28.44M". -/
theorem convert_time_valid_durations_witness :
    convert_time (String.mk ((['2', '8'] ++ ('.' :: ['4', '4'])) ++ ['M'])) =
      .ok ((digitsVal ['2', '8'] : ℚ) + (microVal ['4', '4'] : ℚ) / 1000000) :=
  convert_time_valid_durations.2.2.1 ['2', '8'] ['4', '4'] ['M'] (by decide) (by decide)
    (Or.inr rfl)

/-- Claim C9 counterexample: on the empty string `convert_time` raises
IndexError (from `time_str[-1]`), not the FormatError the claim requires. -/
theorem convert_time_empty_raises_index_error :
    convert_time "" = .error .indexError ∧ PyErr.indexError ≠ PyErr.formatError :=
  ⟨rfl, by decide⟩

/-- Claim C9 (amended): for every nonempty input string, `convert_time`
fails exactly when the string (after stripping the marker suffix) does not
match one of the three accepted duration shapes with in-range numeric
components, and every such failure is a FormatError; the empty string
instead fails with IndexError.  There are no side effects (the embedded
function is pure by construction). -/
theorem convert_time_failure_is_format_error :
    ∀ s : String, s ≠ "" →
      ((∃ q, convert_time s = .ok q) ↔ durationShape s.data = true)
      ∧ (∀ e, convert_time s = .error e → e = .formatError) := by
  intro s hs
  have hd : s.data ≠ [] := by
    intro h
    apply hs
    cases s with
    | mk d => exact congrArg String.mk h
  obtain ⟨c, hc⟩ := Option.isSome_iff_exists.mp (List.getLast?_isSome.mpr hd)
  simp only [convert_time, convertTimeChars, durationShape, convertTimeCore, hc]
  cases hp : (if ((if c = 'M' then s.data.dropLast else s.data).filter
        (fun ch => ch == ':')).length = 2
      then parseHMS (if c = 'M' then s.data.dropLast else s.data)
      else if ((if c = 'M' then s.data.dropLast else s.data).filter
        (fun ch => ch == ':')).length = 1
      then parseMS (if c = 'M' then s.data.dropLast else s.data)
      else parseS (if c = 'M' then s.data.dropLast else s.data)) with
  | none => simp
  | some v =>
    obtain ⟨h, m, s2, f⟩ := v
    by_cases h60 : 60 ≤ s2 <;> simp [h60]

/-- Witness for the amended C9 theorem at the concrete input "0.5". -/
theorem convert_time_failure_is_format_error_witness :
    ((∃ q, convert_time "0.5" = .ok q) ↔ durationShape "0.5".data = true)
    ∧ (∀ e, convert_time "0.5" = .error e → e = .formatError) :=
  convert_time_failure_is_format_error "0.5" (by decide)

/-! ## Lemmas: the rate limiter -/

/-- Invariant carried through the admission protocol: the history is
chronological, every entry is at most the clock, and no trailing window of
length `maxPer` holds more than `maxReq` timestamps. -/
def RateInv (rs : RateState) (clock : ℚ) : Prop :=
  rs.history.Sorted (· ≤ ·) ∧ (∀ s ∈ rs.history, s ≤ clock)
    ∧ ∀ T : ℚ, wcount rs.history rs.maxPer T ≤ rs.maxReq

lemma wcount_eq_valid_length {h : List ℚ} {w a clock : ℚ}
    (hb : ∀ s ∈ h, s ≤ clock) (hca : clock ≤ a) :
    wcount h w a = (h.filter (fun t => decide (a - w < t))).length := by
  rw [wcount, List.countP_eq_length_filter]
  congr 1
  apply List.filter_congr
  intro t ht
  have hta : t ≤ a := le_trans (hb t ht) hca
  simp [decide_eq_true hta]

lemma rate_step_preserves {rs : RateState} {clock a g : ℚ} (hmr : 1 ≤ rs.maxReq)
    (hinv : RateInv rs clock) (hca : clock ≤ a) (hg : 0 ≤ g) :
    ∃ wait rs1, check_request_rate_limit rs a = .ok (wait, rs1) ∧ 0 ≤ wait
      ∧ rs1.maxReq = rs.maxReq ∧ rs1.maxPer = rs.maxPer
      ∧ RateInv (add_request rs1 (a + wait + g)) (a + wait + g) := by
  obtain ⟨hsort, hbound, hwin⟩ := hinv
  by_cases hc : rs.maxReq ≤ (rs.history.filter (fun t => decide (a - rs.maxPer < t))).length
  · -- the window is full: wait until the oldest in-window entry expires
    have hlenle : (rs.history.filter (fun t => decide (a - rs.maxPer < t))).length ≤ rs.maxReq := by
      rw [← wcount_eq_valid_length hbound hca]
      exact hwin a
    cases hval : rs.history.filter (fun t => decide (a - rs.maxPer < t)) with
    | nil => rw [hval] at hc; simp at hc; omega
    | cons t0 rest =>
      have hvlen : (t0 :: rest).length = rs.maxReq := by
        rw [← hval]; omega
      have ht0mem := List.mem_filter.mp (hval ▸ List.mem_cons_self t0 rest)
      have ht0w : a - rs.maxPer < t0 := of_decide_eq_true ht0mem.2
      have hwait : (0 : ℚ) ≤ t0 + rs.maxPer - a := by linarith
      refine ⟨t0 + rs.maxPer - a, ⟨rs.history.filter (fun t => decide (a - rs.maxPer + (t0 + rs.maxPer - a) < t)), rs.maxReq, rs.maxPer⟩, ?_, hwait, rfl, rfl, ?_⟩
      · simp only [check_request_rate_limit]
        rw [hval]
        rw [if_pos (by omega)]
      · -- the pruned history keeps exactly the entries above t0
        have hpred : (fun t => decide (a - rs.maxPer + (t0 + rs.maxPer - a) < t))
            = (fun t => decide (t0 < t)) := by
          have hb : a - rs.maxPer + (t0 + rs.maxPer - a) = t0 := by ring
          simp only [hb]
        have hlen1 : (rs.history.filter
            (fun t => decide (a - rs.maxPer + (t0 + rs.maxPer - a) < t))).length ≤ rs.maxReq - 1 := by
          rw [hpred, ← List.countP_eq_length_filter]
          have hsub : rs.history.countP (fun t => decide (t0 < t))
              = (rs.history.filter (fun t => decide (a - rs.maxPer < t))).countP
                  (fun t => decide (t0 < t)) := by
            rw [List.countP_filter]
            apply List.countP_congr
            intro t _
            constructor
            · intro hp
              simp only [Bool.and_eq_true, decide_eq_true_eq] at hp ⊢
              exact ⟨hp, by linarith⟩
            · intro hp
              simp only [Bool.and_eq_true, decide_eq_true_eq] at hp ⊢
              exact hp.1
          rw [hsub, hval]
          have : List.countP (fun t => decide (t0 < t)) (t0 :: rest)
              = List.countP (fun t => decide (t0 < t)) rest := by
            rw [List.countP_cons]
            simp
          rw [this]
          calc List.countP (fun t => decide (t0 < t)) rest ≤ rest.length :=
                List.countP_le_length _
            _ ≤ rs.maxReq - 1 := by
                have := hvlen
                simp at this
                omega
        set x := a + (t0 + rs.maxPer - a) + g with hxdef
        have hax : a ≤ x := by rw [hxdef]; linarith
        have hsort1 : (rs.history.filter
            (fun t => decide (a - rs.maxPer + (t0 + rs.maxPer - a) < t))).Sorted (· ≤ ·) :=
          List.Pairwise.filter _ hsort
        have hb1 : ∀ s ∈ rs.history.filter
            (fun t => decide (a - rs.maxPer + (t0 + rs.maxPer - a) < t)), s ≤ x :=
          fun s hs => le_trans (le_trans (hbound s (List.mem_of_mem_filter hs)) hca) hax
        refine ⟨?_, ?_, ?_⟩
        · rw [add_request]
          simp only []
          exact List.pairwise_append.mpr ⟨hsort1, List.pairwise_singleton _ _,
            fun s hs _ hb => by
              rw [List.mem_singleton] at hb
              exact hb ▸ hb1 s hs⟩
        · intro s hs
          rw [add_request] at hs
          simp only [List.mem_append, List.mem_singleton] at hs
          rcases hs with hs | rfl
          · exact hb1 s hs
          · exact le_refl _
        · intro T
          rw [add_request]
          simp only [wcount, List.countP_append]
          have hone : List.countP (fun s => decide (T - rs.maxPer < s) && decide (s ≤ T)) [x] ≤ 1 := by
            rw [List.countP_cons]
            simp only [List.countP_nil, Nat.zero_add]
            split <;> omega
          have hbase : List.countP (fun s => decide (T - rs.maxPer < s) && decide (s ≤ T))
              (rs.history.filter (fun t => decide (a - rs.maxPer + (t0 + rs.maxPer - a) < t)))
              ≤ rs.maxReq - 1 := by
            calc _ ≤ (rs.history.filter
                  (fun t => decide (a - rs.maxPer + (t0 + rs.maxPer - a) < t))).length :=
                List.countP_le_length _
              _ ≤ rs.maxReq - 1 := hlen1
          calc _ ≤ (rs.maxReq - 1) + 1 := Nat.add_le_add hbase hone
            _ = rs.maxReq := by omega
  · -- below the limit: no wait, history unchanged
    push_neg at hc
    refine ⟨0, rs, ?_, le_rfl, rfl, rfl, ?_⟩
    · simp only [check_request_rate_limit]
      rw [if_neg (by omega)]
    · set x := a + 0 + g with hxdef
      have hax : a ≤ x := by rw [hxdef]; linarith
      have hb1 : ∀ s ∈ rs.history, s ≤ x := fun s hs => le_trans (le_trans (hbound s hs) hca) hax
      refine ⟨?_, ?_, ?_⟩
      · rw [add_request]
        exact List.pairwise_append.mpr ⟨hsort, List.pairwise_singleton _ _,
          fun s hs _ hb => by
            rw [List.mem_singleton] at hb
            exact hb ▸ hb1 s hs⟩
      · intro s hs
        rw [add_request] at hs
        simp only [List.mem_append, List.mem_singleton] at hs
        rcases hs with hs | rfl
        · exact hb1 s hs
        · exact le_refl _
      · intro T
        rw [add_request]
        simp only [wcount, List.countP_append]
        by_cases hxT : T - rs.maxPer < x ∧ x ≤ T
        · -- the new entry is inside this window, so the old ones below the bound
          have hcnt : rs.history.countP (fun s => decide (T - rs.maxPer < s) && decide (s ≤ T))
              < rs.maxReq := by
            calc rs.history.countP (fun s => decide (T - rs.maxPer < s) && decide (s ≤ T))
                ≤ rs.history.countP (fun t => decide (a - rs.maxPer < t)) := by
                  apply List.countP_mono_left
                  intro t ht hp
                  simp only [Bool.and_eq_true, decide_eq_true_eq] at hp ⊢
                  have htc : t ≤ clock := hbound t ht
                  have hTx : x ≤ T := hxT.2
                  linarith [hp.1, hp.2]
              _ = (rs.history.filter (fun t => decide (a - rs.maxPer < t))).length :=
                  (List.countP_eq_length_filter _ _)
              _ < rs.maxReq := hc
          have hone : List.countP (fun s => decide (T - rs.maxPer < s) && decide (s ≤ T)) [x] ≤ 1 := by
            rw [List.countP_cons]
            simp only [List.countP_nil, Nat.zero_add]
            split <;> omega
          omega
        · have hzero : List.countP (fun s => decide (T - rs.maxPer < s) && decide (s ≤ T)) [x] = 0 := by
            rw [List.countP_cons]
            simp only [List.countP_nil]
            have : ¬(decide (T - rs.maxPer < x) && decide (x ≤ T)) = true := by
              intro hb
              simp only [Bool.and_eq_true, decide_eq_true_eq] at hb
              exact hxT hb
            simp [this]
          rw [hzero]
          have := hwin T
          rw [wcount] at this
          omega

lemma run_protocol_inv (steps : List (ℚ × ℚ)) :
    ∀ (rs : RateState) (clock : ℚ), 1 ≤ rs.maxReq → RateInv rs clock →
      (∀ p ∈ steps, 0 ≤ p.1 ∧ 0 ≤ p.2) →
      ∃ rs2 t, run_protocol rs clock steps = .ok (rs2, t)
        ∧ rs2.maxReq = rs.maxReq ∧ rs2.maxPer = rs.maxPer ∧ RateInv rs2 t := by
  induction steps with
  | nil =>
    intro rs clock _ hinv _
    exact ⟨rs, clock, rfl, rfl, rfl, hinv⟩
  | cons dg rest ih =>
    intro rs clock h1 hinv h3
    have hd : 0 ≤ dg.1 := (h3 dg (List.mem_cons_self dg rest)).1
    have hg : 0 ≤ dg.2 := (h3 dg (List.mem_cons_self dg rest)).2
    obtain ⟨wait, rs1, hchk, hw, hmrq, hmp, hinv1⟩ :=
      rate_step_preserves h1 hinv (show clock ≤ clock + dg.1 by linarith) hg
    have hstep : run_protocol rs clock (dg :: rest)
        = run_protocol (add_request rs1 (clock + dg.1 + wait + dg.2))
            (clock + dg.1 + wait + dg.2) rest := by
      simp only [run_protocol, hchk]
    have hm1 : 1 ≤ (add_request rs1 (clock + dg.1 + wait + dg.2)).maxReq := by
      rw [add_request]
      simp only []
      omega
    obtain ⟨rs2, t, hrun, hq, hp, hinv2⟩ :=
      ih (add_request rs1 (clock + dg.1 + wait + dg.2)) (clock + dg.1 + wait + dg.2) hm1 hinv1
        (fun p hp => h3 p (List.mem_cons_of_mem dg hp))
    refine ⟨rs2, t, hstep ▸ hrun, ?_, ?_, hinv2⟩
    · rw [hq, add_request]
      simp only []
      omega
    · rw [hp, add_request]
      exact hmp

/-- Claim C6: along any run of the admitted-then-recorded request protocol
(nonnegative inter-arrival delays and admission-to-recording gaps, empty
initial history, at least one allowed request), at every point — in
particular at the instant each new request has been admitted and recorded —
at most maxRequests recorded timestamps fall within any trailing
windowSeconds interval.  Every prefix of a run is itself a run, so the
invariant is preserved by every step. -/
theorem request_window_invariant (mr : ℕ) (w : ℚ) (start : ℚ) (steps : List (ℚ × ℚ))
    (hmr : 1 ≤ mr) (hsteps : ∀ p ∈ steps, 0 ≤ p.1 ∧ 0 ≤ p.2) :
    ∃ rs t, run_protocol ⟨[], mr, w⟩ start steps = .ok (rs, t)
      ∧ ∀ T : ℚ, wcount rs.history w T ≤ mr := by
  have hinv0 : RateInv ⟨[], mr, w⟩ start := by
    refine ⟨List.sorted_nil, ?_, ?_⟩
    · intro s hs
      simp at hs
    · intro T
      simp [wcount, List.countP_nil]
  obtain ⟨rs2, t, hrun, hq, hp, _, _, hwin⟩ :=
    run_protocol_inv steps ⟨[], mr, w⟩ start hmr hinv0 hsteps
  have hq2 : rs2.maxReq = mr := hq
  have hp2 : rs2.maxPer = w := hp
  refine ⟨rs2, t, hrun, fun T => ?_⟩
  have h := hwin T
  rw [hp2, hq2] at h
  exact h

/-- Witness for the C6 theorem: three immediate requests against the
configuration (2, 1) from time 0. -/
theorem request_window_invariant_witness :
    ∃ rs t, run_protocol ⟨[], 2, 1⟩ 0 [(0, 0), (0, 0), (0, 0)] = .ok (rs, t)
      ∧ ∀ T : ℚ, wcount rs.history 1 T ≤ 2 :=
  request_window_invariant 2 1 0 [(0, 0), (0, 0), (0, 0)] (by omega)
    (by intro p hp; fin_cases hp <;> exact ⟨le_refl 0, le_refl 0⟩)

/-- Claim C5: `check_request_rate_limit` counts the recorded timestamps
strictly newer than now - windowSeconds; it returns without delay (and
leaves the history unchanged) when that count is below maxRequests, and
otherwise sleeps for exactly oldest-in-window + windowSeconds - now (a
positive amount) and prunes the timestamps that fall outside the window at
wake-up time.  With configuration (2, 1) and two requests recorded in the
current window, admission waits until exactly 1 second after the first
recorded timestamp. -/
theorem check_request_rate_limit_behavior :
    (∀ (rs : RateState) (now : ℚ),
      (rs.history.filter (fun t => decide (now - rs.maxPer < t))).length < rs.maxReq →
      check_request_rate_limit rs now = .ok (0, rs))
  ∧ (∀ (rs : RateState) (now : ℚ), rs.history.Sorted (· ≤ ·) →
      rs.maxReq ≤ (rs.history.filter (fun t => decide (now - rs.maxPer < t))).length →
      1 ≤ rs.maxReq →
      ∃ t0, (now - rs.maxPer < t0 ∧ t0 ∈ rs.history)
        ∧ (∀ t ∈ rs.history, now - rs.maxPer < t → t0 ≤ t)
        ∧ check_request_rate_limit rs now =
            .ok (t0 + rs.maxPer - now,
              ⟨rs.history.filter (fun t => decide ((now + (t0 + rs.maxPer - now)) - rs.maxPer < t)),
                rs.maxReq, rs.maxPer⟩)
        ∧ 0 < t0 + rs.maxPer - now)
  ∧ (∀ (t1 t2 now : ℚ), t1 ≤ t2 → now - 1 < t1 →
      ∃ rs1, check_request_rate_limit ⟨[t1, t2], 2, 1⟩ now = .ok (t1 + 1 - now, rs1)
        ∧ now + (t1 + 1 - now) = t1 + 1) := by
  refine ⟨?_, ?_, ?_⟩
  · intro rs now hlt
    simp only [check_request_rate_limit]
    rw [if_neg (by omega)]
  · intro rs now hsort hge hmr
    cases hval : rs.history.filter (fun t => decide (now - rs.maxPer < t)) with
    | nil =>
      rw [hval] at hge
      simp at hge
      omega
    | cons t0 rest =>
      have ht0mem := List.mem_filter.mp (hval ▸ List.mem_cons_self t0 rest)
      have ht0w : now - rs.maxPer < t0 := of_decide_eq_true ht0mem.2
      have hvsort : (t0 :: rest).Sorted (· ≤ ·) := hval ▸ List.Pairwise.filter _ hsort
      refine ⟨t0, ⟨ht0w, ht0mem.1⟩, ?_, ?_, by linarith⟩
      · intro t ht htw
        have htv : t ∈ t0 :: rest := by
          rw [← hval]
          exact List.mem_filter.mpr ⟨ht, decide_eq_true htw⟩
        rcases List.mem_cons.mp htv with rfl | htr
        · exact le_refl t
        · exact List.rel_of_sorted_cons hvsort t htr
      · rw [hval] at hge
        have hpred : (fun t => decide ((now + (t0 + rs.maxPer - now)) - rs.maxPer < t))
            = (fun t => decide (now - rs.maxPer + (t0 + rs.maxPer - now) < t)) := by
          have hb : (now + (t0 + rs.maxPer - now)) - rs.maxPer
              = now - rs.maxPer + (t0 + rs.maxPer - now) := by ring
          simp only [hb]
        rw [hpred]
        simp only [check_request_rate_limit]
        rw [hval]
        rw [if_pos hge]
  · intro t1 t2 now h12 h1w
    have h2w : now - 1 < t2 := lt_of_lt_of_le h1w h12
    have hcheck : check_request_rate_limit ⟨[t1, t2], 2, 1⟩ now
        = .ok (t1 + 1 - now,
            ⟨[t1, t2].filter (fun t => decide (now - 1 + (t1 + 1 - now) < t)), 2, 1⟩) := by
      simp only [check_request_rate_limit]
      rw [show List.filter (fun t => decide (now - (⟨[t1, t2], 2, 1⟩ : RateState).maxPer < t)) [t1, t2]
          = [t1, t2] from by
        simp only []
        rw [List.filter_cons, List.filter_cons, List.filter_nil]
        simp [decide_eq_true h1w, decide_eq_true h2w]]
      rfl
    exact ⟨_, hcheck, by ring⟩

/-- Witness for the C5 theorem: the (2, 1) scenario at concrete timestamps,
the two recorded requests at times 0 and 1/4 and the blocked admission at
time 1/2. -/
theorem check_request_rate_limit_behavior_witness :
    ∃ rs1, check_request_rate_limit ⟨[0, 1/4], 2, 1⟩ (1/2) = .ok (0 + 1 - 1/2, rs1)
      ∧ (1/2 : ℚ) + (0 + 1 - 1/2) = 0 + 1 :=
  check_request_rate_limit_behavior.2.2 0 (1/4) (1/2) (by norm_num) (by norm_num)

/-! ## Lemmas: the fetch cache -/

lemma check_below (rs : RateState) (now : ℚ)
    (h : (rs.history.filter (fun t => decide (now - rs.maxPer < t))).length < rs.maxReq) :
    check_request_rate_limit rs now = .ok (0, rs) := by
  simp only [check_request_rate_limit]
  rw [if_neg (by omega)]

lemma check_ok_of_pos {rs : RateState} (now : ℚ) (hmr : 1 ≤ rs.maxReq) :
    ∃ wr : ℚ × RateState, check_request_rate_limit rs now = .ok wr := by
  by_cases hc : rs.maxReq ≤ (rs.history.filter (fun t => decide (now - rs.maxPer < t))).length
  · cases hval : rs.history.filter (fun t => decide (now - rs.maxPer < t)) with
    | nil =>
      rw [hval] at hc
      simp at hc
      omega
    | cons t0 rest =>
      have hres : check_request_rate_limit rs now = .ok (t0 + rs.maxPer - now, { rs with history := rs.history.filter (fun t => decide (now - rs.maxPer + (t0 + rs.maxPer - now) < t)) }) := by
        simp only [check_request_rate_limit]
        rw [hval, if_pos (by rw [hval] at hc; exact hc)]
      exact ⟨_, hres⟩
  · exact ⟨_, check_below rs now (by omega)⟩

lemma update_page_content_failure {rs rs1 : RateState} (st : ScraperState) {now wait : ℚ}
    (hchk : check_request_rate_limit rs now = .ok (wait, rs1)) :
    update_page_content rs st now .failure = .ok ⟨rs1, st, now + wait, true⟩ := by
  simp only [update_page_content, hchk]

lemma update_page_content_success {rs rs1 : RateState} (st : ScraperState) {now wait : ℚ}
    (hchk : check_request_rate_limit rs now = .ok (wait, rs1)) (doc : Node) :
    update_page_content rs st now (.success doc)
      = .ok ⟨add_request rs1 (now + wait),
          { st with page_content := some doc, last_updated := some (now + wait) },
          now + wait, (doc.findTag "body").isNone⟩ := by
  simp only [update_page_content, hchk]

lemma update_page_content_ok {rs : RateState} (st : ScraperState) (now : ℚ) (o : FetchOutcome)
    (hmr : 1 ≤ rs.maxReq) : ∃ r, update_page_content rs st now o = .ok r := by
  obtain ⟨⟨wait, rs1⟩, hchk⟩ := check_ok_of_pos now hmr
  cases o with
  | failure => exact ⟨_, update_page_content_failure st hchk⟩
  | success d => exact ⟨_, update_page_content_success st hchk d⟩

lemma get_page_content_hit {rs : RateState} {st : ScraperState} {now : ℚ} {params : Params}
    {o : FetchOutcome} (lu : ℚ) (hlu : st.last_updated = some lu)
    (hreq : st.last_request = some params) (hfresh : now - lu ≤ st.update_interval) :
    get_page_content rs st now params o
      = .ok ⟨rs, { st with last_request := some params }, now, false, false, st.page_content⟩ := by
  simp only [get_page_content, hlu, hreq]
  rw [show (decide ((some params : Option Params) ≠ some params)
      || decide (st.update_interval < now - lu)) = false from by
    rw [decide_eq_false (by simp), decide_eq_false (by push_neg; linarith)]
    rfl]
  simp

lemma get_page_content_miss_none {rs : RateState} {st : ScraperState} {now : ℚ}
    (params : Params) {o : FetchOutcome} {r : UpdateResult}
    (hlu : st.last_updated = none)
    (hupd : update_page_content rs st now o = .ok r) :
    get_page_content rs st now params o
      = .ok ⟨r.rate, { r.scr with last_request := some params }, r.finish, true, r.loggedError,
          ({ r.scr with last_request := some params } : ScraperState).page_content⟩ := by
  simp only [get_page_content, hlu, hupd]
  rfl

lemma get_page_content_miss_params {rs : RateState} {st : ScraperState} {now : ℚ}
    (params : Params) {o : FetchOutcome} {r : UpdateResult} (lu : ℚ)
    (hlu : st.last_updated = some lu) (hne : st.last_request ≠ some params)
    (hupd : update_page_content rs st now o = .ok r) :
    get_page_content rs st now params o
      = .ok ⟨r.rate, { r.scr with last_request := some params }, r.finish, true, r.loggedError,
          ({ r.scr with last_request := some params } : ScraperState).page_content⟩ := by
  simp only [get_page_content, hlu, hupd]
  rw [decide_eq_true hne]
  simp

lemma get_page_content_miss_stale {rs : RateState} {st : ScraperState} {now : ℚ}
    {params : Params} {o : FetchOutcome} {r : UpdateResult} (lu : ℚ)
    (hlu : st.last_updated = some lu) (hstale : st.update_interval < now - lu)
    (hupd : update_page_content rs st now o = .ok r) :
    get_page_content rs st now params o
      = .ok ⟨r.rate, { r.scr with last_request := some params }, r.finish, true, r.loggedError,
          ({ r.scr with last_request := some params } : ScraperState).page_content⟩ := by
  simp only [get_page_content, hlu, hupd]
  rw [show decide (st.update_interval < now - lu) = true from decide_eq_true hstale]
  simp

/-- Claim C7 counterexample: a refresh whose response carries no root `body`
element is logged as a failed fetch ("Empty response"), yet `add_request`
has already recorded rate-limit quota for it. -/
theorem quota_consumed_on_empty_body :
    ∃ r : UpdateResult,
      update_page_content ⟨[], 15, 30⟩ ⟨none, none, 60, none⟩ 0 (.success docNoBody) = .ok r
      ∧ r.loggedError = true ∧ r.rate.history = [0 + 0] := by
  refine ⟨_, update_page_content_success ⟨none, none, 60, none⟩
    (check_below ⟨[], 15, 30⟩ 0 (by simp only [List.filter_nil, List.length_nil]; omega))
    docNoBody, rfl, rfl⟩

/-- Claim C7 (amended): a refresh records rate-limit quota (appends a
timestamp via `add_request`) iff the HTTP request itself succeeded (ok
status, parseable body) — including responses whose root element cannot be
located, which are logged as failures but still consume quota; only
status/transport-level failures leave the history without a new entry. -/
theorem quota_recorded_iff_http_success :
    ∀ (rs : RateState) (st : ScraperState) (now : ℚ), 1 ≤ rs.maxReq →
      ∃ wait rs1, check_request_rate_limit rs now = .ok (wait, rs1)
        ∧ update_page_content rs st now .failure = .ok ⟨rs1, st, now + wait, true⟩
        ∧ ∀ doc : Node, ∃ r : UpdateResult,
            update_page_content rs st now (.success doc) = .ok r
            ∧ r.rate.history = rs1.history ++ [now + wait]
            ∧ (r.loggedError = true ↔ doc.findTag "body" = none) := by
  intro rs st now hmr
  obtain ⟨⟨wait, rs1⟩, hchk⟩ := check_ok_of_pos now hmr
  refine ⟨wait, rs1, hchk, update_page_content_failure st hchk, ?_⟩
  intro doc
  refine ⟨_, update_page_content_success st hchk doc, rfl, ?_⟩
  simp [add_request, Option.isNone_iff_eq_none]

/-- Witness for the amended C7 theorem at the default configuration and a
fresh state. -/
theorem quota_recorded_iff_http_success_witness :
    ∃ wait rs1, check_request_rate_limit ⟨[], 15, 30⟩ 7 = .ok (wait, rs1)
      ∧ update_page_content ⟨[], 15, 30⟩ ⟨none, none, 60, none⟩ 7 .failure
          = .ok ⟨rs1, ⟨none, none, 60, none⟩, 7 + wait, true⟩
      ∧ ∀ doc : Node, ∃ r : UpdateResult,
          update_page_content ⟨[], 15, 30⟩ ⟨none, none, 60, none⟩ 7 (.success doc) = .ok r
          ∧ r.rate.history = rs1.history ++ [7 + wait]
          ∧ (r.loggedError = true ↔ doc.findTag "body" = none) :=
  quota_recorded_iff_http_success ⟨[], 15, 30⟩ ⟨none, none, 60, none⟩ 7 (by decide)

/-- Claim C4 evaluation (code_bug): after a successful fetch has cached a
document, a refresh that fails (HTTP/transport error) leaves the stale
document in `page_content`, so the get that triggered it returns the stale
document and not None; and a refresh whose body has no root element caches
the body-less parsed document instead of None. -/
theorem failed_refresh_keeps_stale_document :
    ∃ r1 r2 r3 : GetResult,
      get_page_content ⟨[], 15, 30⟩ ⟨none, none, 60, none⟩ 0 [("page", "meetDetail")]
          (.success docWithBody) = .ok r1
      ∧ r1.content = some docWithBody
      ∧ get_page_content r1.rate r1.scr 0 [("page", "athleteDetail")] .failure = .ok r2
      ∧ r2.fetched = true ∧ r2.loggedError = true
      ∧ r2.content = some docWithBody ∧ r2.content ≠ none
      ∧ get_page_content r1.rate r1.scr 0 [("page", "athleteDetail")] (.success docNoBody) = .ok r3
      ∧ r3.loggedError = true ∧ r3.content = some docNoBody := by
  have hchk0 : check_request_rate_limit ⟨[], 15, 30⟩ 0 = .ok (0, ⟨[], 15, 30⟩) :=
    check_below _ _ (by simp only [List.filter_nil, List.length_nil]; omega)
  have hup1 := update_page_content_success ⟨none, none, 60, none⟩ hchk0 docWithBody
  have hget1 := get_page_content_miss_none [("page", "meetDetail")] rfl hup1
  have hchk1 : check_request_rate_limit ⟨[(0:ℚ) + 0], 15, 30⟩ 0
      = .ok (0, ⟨[(0:ℚ) + 0], 15, 30⟩) :=
    check_below _ _ (lt_of_le_of_lt (List.length_filter_le _ _) (by norm_num))
  have hget2 := get_page_content_miss_params [("page", "athleteDetail")] (0 + 0) rfl (by decide)
    (update_page_content_failure
      ⟨some [("page", "meetDetail")], some docWithBody, 60, some (0 + 0)⟩ hchk1)
  have hget3 := get_page_content_miss_params [("page", "athleteDetail")] (0 + 0) rfl (by decide)
    (update_page_content_success
      ⟨some [("page", "meetDetail")], some docWithBody, 60, some (0 + 0)⟩ hchk1 docNoBody)
  exact ⟨_, _, _, hget1, rfl, hget2, rfl, rfl, rfl,
    (show some docWithBody ≠ none from Option.some_ne_none _), hget3, rfl, rfl⟩

/-- Claim C3: from a fresh cache, `get(P)` fetches; an immediately repeated
`get(P)` within the update interval does not fetch (exactly one underlying
fetch across the two calls) and returns the cached document; `get(Q)` with a
mapping that differs by full equality fetches again; and `get(P)` after more
than the update interval has elapsed fetches again. -/
theorem fetch_cache_exactly_one_fetch (u t0 t1 : ℚ) (P Q : Params) (doc : Node) (mr : ℕ)
    (w : ℚ) (o2 : FetchOutcome) (hmr : 1 ≤ mr) :
    ∃ r1 : GetResult,
      get_page_content ⟨[], mr, w⟩ ⟨none, none, u, none⟩ t0 P (.success doc) = .ok r1
      ∧ r1.fetched = true ∧ r1.content = some doc
      ∧ (t1 - (t0 + 0) ≤ u → ∃ r2, get_page_content r1.rate r1.scr t1 P o2 = .ok r2
          ∧ r2.fetched = false ∧ r2.content = some doc)
      ∧ (Q ≠ P → ∃ r2, get_page_content r1.rate r1.scr t1 Q o2 = .ok r2 ∧ r2.fetched = true)
      ∧ (u < t1 - (t0 + 0) → ∃ r2, get_page_content r1.rate r1.scr t1 P o2 = .ok r2
          ∧ r2.fetched = true) := by
  have hchk0 : check_request_rate_limit ⟨[], mr, w⟩ t0 = .ok (0, ⟨[], mr, w⟩) :=
    check_below _ _ (by simp only [List.filter_nil, List.length_nil]; omega)
  have hup1 := update_page_content_success ⟨none, none, u, none⟩ hchk0 doc
  have hget1 := get_page_content_miss_none P rfl hup1
  have hmr1 : 1 ≤ (add_request ⟨[], mr, w⟩ (t0 + 0)).maxReq := hmr
  refine ⟨_, hget1, rfl, rfl, ?_, ?_, ?_⟩
  · intro hfresh
    refine ⟨_, get_page_content_hit (t0 + 0) rfl rfl hfresh, rfl, rfl⟩
  · intro hQ
    obtain ⟨r, hupd⟩ := update_page_content_ok _ t1 o2 hmr1
    exact ⟨_, get_page_content_miss_params Q (t0 + 0) rfl
      (by simp only [ne_eq, Option.some.injEq]; exact fun h => hQ h.symm) hupd, rfl⟩
  · intro hstale
    obtain ⟨r, hupd⟩ := update_page_content_ok _ t1 o2 hmr1
    exact ⟨_, get_page_content_miss_stale (t0 + 0) rfl hstale hupd, rfl⟩

/-- Witness for the C3 theorem: interval 60, first fetch at time 0, second
call at time 1, the default rate configuration, distinct mappings. -/
theorem fetch_cache_exactly_one_fetch_witness :
    ∃ r1 : GetResult,
      get_page_content ⟨[], 15, 30⟩ ⟨none, none, 60, none⟩ 0 [("page", "meetDetail")]
          (.success docWithBody) = .ok r1
      ∧ r1.fetched = true ∧ r1.content = some docWithBody
      ∧ ((1 : ℚ) - (0 + 0) ≤ 60 → ∃ r2, get_page_content r1.rate r1.scr 1
            [("page", "meetDetail")] .failure = .ok r2
          ∧ r2.fetched = false ∧ r2.content = some docWithBody)
      ∧ ([("page", "athleteDetail")] ≠ [("page", "meetDetail")] →
          ∃ r2, get_page_content r1.rate r1.scr 1 [("page", "athleteDetail")] .failure = .ok r2
            ∧ r2.fetched = true)
      ∧ ((60 : ℚ) < 1 - (0 + 0) → ∃ r2, get_page_content r1.rate r1.scr 1
            [("page", "meetDetail")] .failure = .ok r2 ∧ r2.fetched = true) :=
  fetch_cache_exactly_one_fetch 60 0 1 [("page", "meetDetail")] [("page", "athleteDetail")]
    docWithBody 15 30 .failure (by omega)

/-! ## Theorems: extractor fail-soft behaviour and race identity -/

/-- Claim C1 evaluation (code_bug): with a fetched document present (its
body element exists) but the expected top-level table absent,
`Meet.list_events` raises AttributeError — `soup.find` returning None is
guarded by the try block, but the menu search on that None runs outside it —
and `Meet.list_results` raises IndexError (`tables[race_id - 1]` on an empty
table list also runs outside the try block).  Neither call returns an empty
sequence, contradicting the claim and the class docstring. -/
theorem structure_absent_raises :
    list_events (some docNoNav) = .error .attributeError
    ∧ list_results (some docNoNav) 1 = .error .indexError
    ∧ (Node.findTag docNoNav "body").isSome = true :=
  ⟨rfl, rfl, rfl⟩

/-- Claim C2: every extractor method invoked when the cached document is
None returns an empty sequence (None for `get_time`) and never raises: the
AttributeError raised by the first structural lookup on None is caught by
the method's try block.  (`Club.list_athletes` at its three documented
gender values.) -/
theorem none_document_extractors_return_empty :
    list_personal_bests none = .ok []
    ∧ athlete_list_meets none = .ok []
    ∧ list_clubs none = .ok []
    ∧ list_events none = .ok []
    ∧ list_races none = .ok []
    ∧ (∀ race_id : ℤ, list_results none race_id = .ok [])
    ∧ get_time none = .ok none
    ∧ list_time_periods none = .ok []
    ∧ list_nations none = .ok []
    ∧ meets_list_meets none = .ok []
    ∧ list_athletes none 0 = .ok []
    ∧ list_athletes none 1 = .ok []
    ∧ list_athletes none 2 = .ok [] :=
  ⟨rfl, rfl, rfl, rfl, rfl, fun _ => rfl, rfl, rfl, rfl, rfl, rfl, rfl, rfl⟩

lemma races_step_shape {races : List RaceEntry} {p : ℕ × Node} {res : List RaceEntry}
    (h : raceEntryOfTable races p = .ok res) :
    ∃ nm, res = races ++ [⟨p.1 + 1, nm⟩] := by
  simp only [raceEntryOfTable] at h
  cases h1 : pyFind (p.2.findSel "tr" ["meetResultHead"]) "th" ["event"] with
  | error e =>
    rw [h1] at h
    simp [Bind.bind, Except.bind] at h
  | ok nc =>
    rw [h1] at h
    simp only [Bind.bind, Except.bind] at h
    cases h2 : pyGetText nc with
    | error e =>
      rw [h2] at h
      exact absurd h (by simp)
    | ok nm =>
      rw [h2] at h
      simp only [Except.ok.injEq] at h
      exact ⟨unicodeNFKD nm, h.symm⟩

lemma races_fold (l : List (ℕ × Node)) :
    ∀ (acc res : List RaceEntry), l.foldlM raceEntryOfTable acc = .ok res →
      ∃ tail, res = acc ++ tail ∧ tail.length = l.length
        ∧ ∀ (i : ℕ) (h1 : i < tail.length) (h2 : i < l.length),
            (tail.get ⟨i, h1⟩).race_id = (l.get ⟨i, h2⟩).1 + 1 := by
  induction l with
  | nil =>
    intro acc res h
    simp only [List.foldlM_nil] at h
    refine ⟨[], ?_, rfl, ?_⟩
    · cases h
      simp
    · intro i h1 h2
      simp at h1
  | cons p rest ih =>
    intro acc res h
    rw [List.foldlM_cons] at h
    cases hstep : raceEntryOfTable acc p with
    | error e =>
      rw [hstep] at h
      simp [Bind.bind, Except.bind] at h
    | ok acc1 =>
      rw [hstep] at h
      simp only [Bind.bind, Except.bind] at h
      obtain ⟨nm, hacc1⟩ := races_step_shape hstep
      obtain ⟨tail, hres, hlen, hidx⟩ := ih acc1 res h
      refine ⟨⟨p.1 + 1, nm⟩ :: tail, ?_, by simp [hlen], ?_⟩
      · rw [hres, hacc1]
        simp
      · intro i h1 h2
        cases i with
        | zero => simp
        | succ j =>
          simp only [List.get_cons_succ]
          exact hidx j (by simpa using h1) (by simpa using h2)

/-- Claim C10: `Meet.list_races` assigns `race_id` as the 1-based position
of each `meetResult` table in document order (on a page with two tables the
ids are 1 and 2, matching table order exactly), and `Meet.list_results`
selects the table at position `race_id - 1` of the same document-order
sequence and extracts its rows. -/
theorem races_position_ids :
    (∀ (doc : Node) (races : List RaceEntry), list_races (some doc) = .ok races →
      races.length = (doc.findAllSel "table" ["meetResult"]).length
      ∧ ∀ (i : ℕ) (h : i < races.length), (races.get ⟨i, h⟩).race_id = i + 1)
  ∧ (∀ (doc : Node) (rid : ℤ), 1 ≤ rid →
      rid.toNat ≤ (doc.findAllSel "table" ["meetResult"]).length →
      ∃ h : (rid - 1).toNat < (doc.findAllSel "table" ["meetResult"]).length,
        list_results (some doc) rid
          = extractResultRows ((doc.findAllSel "table" ["meetResult"]).get ⟨(rid - 1).toNat, h⟩))
  ∧ list_races (some docTwoRaces) = .ok [⟨1, "Race A"⟩, ⟨2, "Race B"⟩] := by
  refine ⟨?_, ?_, rfl⟩
  · intro doc races h
    simp only [list_races, pyFindAll] at h
    obtain ⟨tail, hres, hlen, hidx⟩ := races_fold _ [] races h
    rw [hres]
    simp only [List.nil_append]
    rw [List.enum_length] at hlen
    refine ⟨hlen, ?_⟩
    intro i hi
    have hi2 : i < (doc.findAllSel "table" ["meetResult"]).enum.length := by
      rw [List.enum_length]
      omega
    rw [hidx i hi hi2]
    have := List.getElem_enum (doc.findAllSel "table" ["meetResult"]) i
      (by simpa using hi2)
    simp only [List.get_eq_getElem, this]
  · intro doc rid h1 h2
    have hlt : (rid - 1).toNat < (doc.findAllSel "table" ["meetResult"]).length := by omega
    refine ⟨hlt, ?_⟩
    simp only [list_results, pyFindAll, pyIndex]
    rw [if_neg (by omega : ¬(rid - 1 < 0))]
    rw [if_neg (by omega : ¬(rid - 1 < 0))]
    rw [List.get?_eq_get hlt]
    simp [Bind.bind, Except.bind]

/-- Witness for the C10 theorem at the two-table page `docTwoRaces` and
`race_id = 2`. -/
theorem races_position_ids_witness :
    (([(⟨1, "Race A"⟩ : RaceEntry), ⟨2, "Race B"⟩].length
        = (docTwoRaces.findAllSel "table" ["meetResult"]).length
      ∧ ∀ (i : ℕ) (h : i < [(⟨1, "Race A"⟩ : RaceEntry), ⟨2, "Race B"⟩].length),
          ([(⟨1, "Race A"⟩ : RaceEntry), ⟨2, "Race B"⟩].get ⟨i, h⟩).race_id = i + 1))
    ∧ ∃ h : ((2:ℤ) - 1).toNat < (docTwoRaces.findAllSel "table" ["meetResult"]).length,
        list_results (some docTwoRaces) 2
          = extractResultRows
              ((docTwoRaces.findAllSel "table" ["meetResult"]).get ⟨((2:ℤ) - 1).toNat, h⟩) :=
  ⟨races_position_ids.1 docTwoRaces [⟨1, "Race A"⟩, ⟨2, "Race B"⟩] rfl,
   races_position_ids.2.1 docTwoRaces 2 (by decide) (by decide)⟩
